import Mathlib

/-!
Verification of the http2nostr proxy server core (src/server.ts) against its
natural-language specification.  The definitions below are a shallow embedding
of the relevant parts of the source: pure fragments become Lean functions and
the stateful request lifecycle becomes explicit state passing over a
RequestState record.  Timestamps are modelled as integers (the source works
with numbers of seconds); JavaScript dynamic values relevant to the validation
code are modelled with the JValue type.
-/

/-- A JavaScript dynamic value, restricted to the shapes the validation code in
src/server.ts distinguishes (strings, numbers, booleans, undefined). -/
inductive JValue where
  | jstr : String → JValue
  | jnum : Int → JValue
  | jbool : Bool → JValue
  | jundef : JValue
deriving DecidableEq, Repr

/-- typeof v === "string" in the source. -/
def JValue.isStr : JValue → Bool
  | .jstr _ => true
  | _ => false

/-- typeof v === "number" in the source. -/
def JValue.isNum : JValue → Bool
  | .jnum _ => true
  | _ => false

/-- JavaScript truthiness of a JValue: empty string, zero, false and undefined
are falsy. -/
def JValue.jsTruthy : JValue → Bool
  | .jstr s => if s = "" then false else true
  | .jnum n => if n = 0 then false else true
  | .jbool b => b
  | .jundef => false

/-- The replay-window acceptance test of src/server.ts lines 274-281: the inner
event is dropped when created_at < oldestTime (Old event) and when
now + 600 < created_at (Future event); it passes the window otherwise. -/
def replayWindowAccepts (createdAt oldestTime now : Int) : Bool :=
  if createdAt < oldestTime then false
  else if now + 600 < createdAt then false
  else true

/-- The decrypted inner event, with each checked field carried as a dynamic
JValue exactly as the source receives it from JSON.parse
(src/server.ts line 258). -/
structure UnsignedInner where
  kind : JValue
  pubkey : JValue
  created_at : JValue
  id : JValue
  content : JValue
deriving DecidableEq, Repr

/-- The inner-event acceptance test of src/server.ts lines 259-273: the event
is dropped unless kind is the number 81, pubkey strictly equals the seal
pubkey (a string), and created_at, id, content have typeof number, string,
string respectively.  No length bound is applied to the inner event id here
(the 1..100 length bound in the source applies to the response-message id at
line 292, see messageIdOk). -/
def innerEventAccepted (e : UnsignedInner) (sealPubkey : String) : Bool :=
  if e.kind ≠ JValue.jnum 81 then false
  else if e.pubkey ≠ JValue.jstr sealPubkey then false
  else if ¬ (e.created_at.isNum = true ∧ e.id.isStr = true ∧ e.content.isStr = true) then false
  else true

/-- The response-message id check of src/server.ts lines 291-294: the message
is rejected when its id field is falsy, not a string, or longer than 100
characters. -/
def messageIdOk : JValue → Bool
  | .jstr s => if s = "" then false else if 100 < s.length then false else true
  | _ => false

/-- Claim C6: the ingress window check accepts an inner response exactly when
its created_at lies in the interval from oldestTime to now + 600; a value of
now + 601 is rejected as a future event and a value of oldestTime - 1 is
rejected as an old event. -/
theorem c6_replay_window (c o n : Int) :
    (o ≤ c → c ≤ n + 600 → replayWindowAccepts c o n = true) ∧
    replayWindowAccepts (n + 601) o n = false ∧
    replayWindowAccepts (o - 1) o n = false := by
  refine ⟨fun h1 h2 => ?_, ?_, ?_⟩
  · simp only [replayWindowAccepts]
    rw [if_neg (by omega), if_neg (by omega)]
  · simp only [replayWindowAccepts]
    by_cases h : n + 601 < o
    · rw [if_pos h]
    · rw [if_neg h, if_pos (by omega)]
  · simp only [replayWindowAccepts]
    rw [if_pos (by omega)]

/-- Witness for c6_replay_window at concrete inputs. -/
theorem c6_witness : replayWindowAccepts 5 3 0 = true :=
  (c6_replay_window 5 3 0).1 (by decide) (by decide)

/-- A 101-character string, used to exhibit an inner event id that exceeds the
length bound claimed for step 6 of the ingress pipeline. -/
def longInnerId : String := String.mk (List.replicate 101 'a')

/-- Claim C7, counterexample: a decrypted inner event whose id is a string of
101 characters (with all other fields as the claim requires) is NOT dropped by
the inner-event validation of lines 259-273 - the source only checks typeof
string there - even though the claim says Ingress drops any inner event whose
id is not a string of 1 to 100 characters.  The 1..100 bound in the source
applies only to the response-message id parsed from inner.content. -/
theorem c7_counterexample :
    innerEventAccepted
      { kind := JValue.jnum 81, pubkey := JValue.jstr "pk",
        created_at := JValue.jnum 1700000000, id := JValue.jstr longInnerId,
        content := JValue.jstr "x" } "pk" = true ∧
    longInnerId.length = 101 ∧
    messageIdOk (JValue.jstr longInnerId) = false := by decide

/-- Claim C7 (amended): the inner-event validation drops the decrypted inner
event unless its kind is 81, its pubkey equals the seal pubkey, its created_at
is a number, and its id and content are strings (any string id passes);
separately, the response message parsed from inner.content is rejected unless
its id is a non-empty string of at most 100 characters. -/
theorem c7_amended :
    (∀ (e : UnsignedInner) (sealPubkey : String),
      innerEventAccepted e sealPubkey = true ↔
        (e.kind = JValue.jnum 81 ∧ e.pubkey = JValue.jstr sealPubkey ∧
         e.created_at.isNum = true ∧ e.id.isStr = true ∧ e.content.isStr = true)) ∧
    (∀ idv : JValue,
      messageIdOk idv = true ↔ ∃ s : String, idv = JValue.jstr s ∧ 1 ≤ s.length ∧ s.length ≤ 100) := by
  constructor
  · intro e sealPubkey
    unfold innerEventAccepted
    by_cases h1 : e.kind = JValue.jnum 81
    · by_cases h2 : e.pubkey = JValue.jstr sealPubkey
      · by_cases h3 : e.created_at.isNum = true ∧ e.id.isStr = true ∧ e.content.isStr = true
        · rw [if_neg (not_not_intro h1), if_neg (not_not_intro h2), if_neg (not_not_intro h3)]
          exact iff_of_true rfl ⟨h1, h2, h3.1, h3.2.1, h3.2.2⟩
        · rw [if_neg (not_not_intro h1), if_neg (not_not_intro h2), if_pos h3]
          refine iff_of_false (by decide) ?_
          intro hc
          exact h3 ⟨hc.2.2.1, hc.2.2.2.1, hc.2.2.2.2⟩
      · rw [if_neg (not_not_intro h1), if_pos h2]
        refine iff_of_false (by decide) ?_
        intro hc
        exact h2 hc.2.1
    · rw [if_pos h1]
      refine iff_of_false (by decide) ?_
      intro hc
      exact h1 hc.1
  · intro idv
    cases idv with
    | jstr s =>
      show (if s = "" then false else if 100 < s.length then false else true) = true ↔ _
      by_cases h0 : s = ""
      · rw [if_pos h0]
        refine iff_of_false (by decide) ?_
        rintro ⟨t, ht, hlo, hhi⟩
        injection ht with ht
        subst ht
        subst h0
        exact absurd hlo (by decide)
      · rw [if_neg h0]
        by_cases h100 : 100 < s.length
        · rw [if_pos h100]
          refine iff_of_false (by decide) ?_
          rintro ⟨t, ht, hlo, hhi⟩
          injection ht with ht
          subst ht
          omega
        · rw [if_neg h100]
          refine iff_of_true rfl ⟨s, rfl, ?_, by omega⟩
          rcases s with ⟨l⟩
          cases l with
          | nil => simp at h0
          | cons c cs => simp [String.length]
    | jnum n =>
      rw [show messageIdOk (JValue.jnum n) = false from rfl]
      refine iff_of_false (by decide) ?_
      rintro ⟨t, ht, -, -⟩
      exact JValue.noConfusion ht
    | jbool b =>
      rw [show messageIdOk (JValue.jbool b) = false from rfl]
      refine iff_of_false (by decide) ?_
      rintro ⟨t, ht, -, -⟩
      exact JValue.noConfusion ht
    | jundef =>
      rw [show messageIdOk JValue.jundef = false from rfl]
      refine iff_of_false (by decide) ?_
      rintro ⟨t, ht, -, -⟩
      exact JValue.noConfusion ht

/-- An inner HTTP response message after the shape validation of src/server.ts
lines 291-311: id a non-empty string of at most 100 characters, partIndex a
non-negative safe integer, parts a safe integer of at least 1, bodyBase64 a
string, and, for partIndex zero, a safe-integer status and a string-valued
headers object.  The status and headers fields are optional because the
validation only requires them when partIndex is zero. -/
structure ResponseMessage where
  id : String
  partIndex : Nat
  parts : Nat
  status : Option Int
  headers : List (String × String)
  bodyBase64 : String
deriving DecidableEq, Repr

/-- JavaScript Map.set on an association list with unique keys: an existing
key is overwritten in place, a new key is appended at the end (insertion
order, as JavaScript maps keep it). -/
def mapSet (k : Nat) (v : ResponseMessage) : List (Nat × ResponseMessage) → List (Nat × ResponseMessage)
  | [] => [(k, v)]
  | (k2, v2) :: rest => if k = k2 then (k, v) :: rest else (k2, v2) :: mapSet k v rest

/-- JavaScript Map.get on an association list. -/
def mapGet (k : Nat) : List (Nat × ResponseMessage) → Option ResponseMessage
  | [] => none
  | (k2, v) :: rest => if k = k2 then some v else mapGet k rest

/-- The value of one base64 alphabet character, none for characters outside
the alphabet (which the Node.js base64 decoder skips, including padding). -/
def b64Val (c : Char) : Option Nat :=
  if 65 ≤ c.toNat ∧ c.toNat ≤ 90 then some (c.toNat - 65)
  else if 97 ≤ c.toNat ∧ c.toNat ≤ 122 then some (c.toNat - 97 + 26)
  else if 48 ≤ c.toNat ∧ c.toNat ≤ 57 then some (c.toNat - 48 + 52)
  else if c = '+' then some 62
  else if c = '/' then some 63
  else none

/-- Groups of base64 sextets turned into bytes; a trailing group of two or
three sextets yields one or two bytes, a single leftover sextet is dropped
(the behaviour of Buffer.from with the base64 encoding). -/
def sextetsToBytes : List Nat → List Nat
  | a :: b :: c :: d :: rest =>
      (a * 4 + b / 16) :: ((b % 16) * 16 + c / 4) :: ((c % 4) * 64 + d) :: sextetsToBytes rest
  | [a, b] => [a * 4 + b / 16]
  | [a, b, c] => [a * 4 + b / 16, (b % 16) * 16 + c / 4]
  | _ => []

/-- Base64 decoding of a string into bytes, as Buffer.from(s, base64) does:
characters outside the alphabet are skipped, then sextets are packed. -/
def base64Decode (s : String) : List Nat :=
  sextetsToBytes (s.data.filterMap b64Val)

/-- The bytes of a plain ASCII string, as written by res.end(text). -/
def strBytes (s : String) : List Nat :=
  s.data.map Char.toNat

/-- One completed HTTP write: the status code and headers passed to
res.writeHead and the body bytes passed to res.end. -/
structure WriteRec where
  status : Int
  headers : List (String × String)
  body : List Nat
deriving DecidableEq, Repr

/-- The HTTP response handle: the log of writes that succeeded and whether the
response has already been ended (a second writeHead throws, the source
catches and swallows that error). -/
structure HttpRes where
  writes : List WriteRec
  ended : Bool
deriving DecidableEq, Repr

/-- Attempt writeHead plus end on the response handle: a no-op when the
response was already ended (the thrown error is caught by the source). -/
def resWrite (r : HttpRes) (w : WriteRec) : HttpRes :=
  if r.ended then r else { writes := r.writes ++ [w], ended := true }

/-- The state of one HTTP request in flight: whether its Pending entry is in
the pendingResponses map, the entry map of received parts, whether its
timeout timer is still armed, the response handle, the cached relays on which
this request id is pinned, and the key fields (the request id and the
destination public key) that form the pendingResponses key
id + colon + destinationPublicKey of src/server.ts line 520. -/
structure RequestState where
  pendingPresent : Bool
  responseMessages : List (Nat × ResponseMessage)
  timerActive : Bool
  res : HttpRes
  pins : List String
  reqId : String
  destPk : String
deriving DecidableEq, Repr

/-- The Pending entry registration of src/server.ts lines 536-550: a fresh
entry with an empty parts map, an armed timer, and the given pinned hint
relays (pinned by the preceding relay-connection loop). -/
def mkPending (pins : List String) (reqId destPk : String) : RequestState :=
  { pendingPresent := true, responseMessages := [], timerActive := true,
    res := { writes := [], ended := false }, pins := pins,
    reqId := reqId, destPk := destPk }

/-- The body assembly of src/server.ts lines 337-342: the bodyBase64 fields of
the stored parts at indices 0 to parts-1 are concatenated, a missing index
contributing the empty string. -/
def assembleBody (rm : List (Nat × ResponseMessage)) (parts : Nat) : String :=
  String.join ((List.range parts).map (fun i => ((mapGet i rm).map (fun q => q.bodyBase64)).getD ""))

/-- The timeout callback of src/server.ts lines 538-547: it writes a 500
Timed out response (swallowing a failure when the response is gone) and runs
onClose, which unpins the request id from every cached relay (lines 523-534).
It does NOT delete the entry from pendingResponses: no pendingResponses.delete
occurs anywhere in the callback. -/
def timeoutFire (s : RequestState) : RequestState :=
  { s with res := resWrite s.res ⟨500, [], strBytes "Timed out"⟩,
           timerActive := false, pins := [] }

/-- A client disconnect.  The source never registers a handler for the HTTP
close event: the request handler attaches only data and end listeners to the
request (src/server.ts lines 553-556) and nothing to the response socket, so
a disconnect changes none of pendingResponses, the timer, or the pinned
relays. -/
def clientDisconnect (s : RequestState) : RequestState :=
  s

/-- The routing tail of onevent, src/server.ts lines 318-355, for an already
validated response message m carried by a seal with public key sealPubkey:
look up the entry under the key built from the message id and the seal
pubkey; if absent, drop; otherwise store the part under its partIndex; if the
stored count is below the parts field of the incoming message, stop;
otherwise remove the entry, cancel its timer, and write the response using
the status and headers of the stored part 0 and the base64 decoded
concatenation of parts 0 to parts-1 (a missing part 0 aborts the write, the
thrown error being caught); finally run onClose, unpinning the request id. -/
def oneventComplete (s : RequestState) (rm2 : List (Nat × ResponseMessage)) (parts : Nat) :
    RequestState :=
  match mapGet 0 rm2 with
  | none =>
      { s with responseMessages := rm2, pendingPresent := false,
               timerActive := false, pins := [] }
  | some first =>
      { s with responseMessages := rm2, pendingPresent := false,
               timerActive := false, pins := [],
               res := resWrite s.res
                 ⟨first.status.getD 0, first.headers,
                  base64Decode (assembleBody rm2 parts)⟩ }

/-- The part-insertion step of onevent: store the part under its partIndex
(line 324); stop if the stored count is below the parts field of the incoming
message (line 325); otherwise complete (lines 328-355, oneventComplete). -/
def oneventDeliver (s : RequestState) (sealPubkey : String) (m : ResponseMessage) : RequestState :=
  if m.id = s.reqId ∧ sealPubkey = s.destPk ∧ s.pendingPresent = true then
    if (mapSet m.partIndex m s.responseMessages).length < m.parts then
      { s with responseMessages := mapSet m.partIndex m s.responseMessages }
    else
      oneventComplete s (mapSet m.partIndex m s.responseMessages) m.parts
  else s

/-- Deliver a list of validated response messages from the destination with
seal public key sealPubkey, in order. -/
def deliverAll (s : RequestState) (sealPubkey : String) : List ResponseMessage → RequestState
  | [] => s
  | m :: ms => deliverAll (oneventDeliver s sealPubkey m) sealPubkey ms

/-- The X-Nostr-Destination header as the request handler classifies it:
absent or empty; starting with nprofile and decoding to an nprofile with a
pubkey and hint relays; starting with nprofile but failing to decode; another
destination string that decodes to a public key; or one whose decoding
throws.  nip19 decoding itself is an external library call. -/
inductive DestHeader where
  | missing
  | nprofileGood (pk : String) (relays : List String)
  | nprofileBad
  | otherGood (pk : String)
  | otherBad
deriving DecidableEq, Repr

/-- The outcome of the destination-resolution prefix of the request handler:
either a 400 was written and the handler returned, or the handler proceeds to
create a Pending entry and publish, with the resolved destination public key,
the hint-relay list, and a flag recording whether the 400 guidance message
was written on the way (the nprofile empty-hints branch writes it without
returning). -/
inductive HandlerStep where
  | reject400 (msg : String)
  | proceed (destPk : String) (hints : List String) (wrote400 : Bool)
deriving DecidableEq, Repr

/-- The destination resolution of src/server.ts lines 437-519 (no fixed
destination configured).  A missing header and a malformed header write a 400
and return.  An nprofile header yields the hint relays normalized and
filtered against the initial relays; when both the hints and the initial
relays are empty, the source writes the 400 guidance message at lines 459-465
but, unlike every sibling branch, does not return, so the handler still
proceeds.  A non-nprofile header requires a non-empty initial relay set,
writing a 400 and returning otherwise (the header is only decoded after that
check). -/
def resolveDestination (initialRelayUrls : List String) (normalize : String → String) :
    DestHeader → HandlerStep
  | .missing => .reject400 "Missing X-Nostr-Destination header"
  | .nprofileGood pk relays =>
      let hintRelays := (relays.map normalize).filter (fun r => !(initialRelayUrls.contains r))
      .proceed pk hintRelays (hintRelays.isEmpty && initialRelayUrls.isEmpty)
  | .nprofileBad => .reject400 "Malformed header: X-Nostr-Destination"
  | .otherGood _pk =>
      if initialRelayUrls.isEmpty then
        .reject400 "The server does not have default relays. X-Nostr-Destination header must be a NIP19 nprofile entity that has hints for relays."
      else
        .proceed _pk [] false
  | .otherBad =>
      if initialRelayUrls.isEmpty then
        .reject400 "The server does not have default relays. X-Nostr-Destination header must be a NIP19 nprofile entity that has hints for relays."
      else
        .reject400 "Malformed header: X-Nostr-Destination"

/-- Whether the request handler reaches the Pending-entry registration of
lines 520-550: it does whenever resolution proceeds (the registration is
unconditional after the destination block). -/
def handlerCreatesPending (initialRelayUrls : List String) (normalize : String → String)
    (h : DestHeader) : Bool :=
  match resolveDestination initialRelayUrls normalize h with
  | .reject400 _ => false
  | .proceed _ _ _ => true

/-- The publish fan-out of src/server.ts lines 637-658: the request event is
published to every initial relay through the pool and then to every cached
relay, with no filtering of either list. -/
def publishTargets (initialRelayUrls cachedRelayUrls : List String) : List String :=
  initialRelayUrls ++ cachedRelayUrls

/-- A single-part 200 response message with body aGk= used as the late
response in the timeout scenario. -/
def lateMsg : ResponseMessage :=
  { id := "rid", partIndex := 0, parts := 1, status := some 200,
    headers := [("content-type", "text/plain")], bodyBase64 := "aGk=" }

/-- Claim C1, code behaviour at the failing input: after the timeout callback
runs, the Pending entry is still present (the source never deletes it), the
500 Timed out response has been written, and a later single-part response with
the same inner id still finds the entry, is inserted, and completes it - it is
not dropped as the claim states.  The duplicate write attempt is swallowed
because the response has already ended. -/
theorem c1_code_behavior :
    (timeoutFire (mkPending [] "rid" "dpk")).pendingPresent = true ∧
    (timeoutFire (mkPending [] "rid" "dpk")).res.writes =
      [⟨500, [], strBytes "Timed out"⟩] ∧
    (oneventDeliver (timeoutFire (mkPending [] "rid" "dpk")) "dpk" lateMsg).pendingPresent = false ∧
    (oneventDeliver (timeoutFire (mkPending [] "rid" "dpk")) "dpk" lateMsg).responseMessages =
      [(0, lateMsg)] ∧
    (oneventDeliver (timeoutFire (mkPending [] "rid" "dpk")) "dpk" lateMsg).res.writes =
      [⟨500, [], strBytes "Timed out"⟩] := by decide

/-- Part 0 of a two-part response, used in the disconnect scenario. -/
def part0of2 : ResponseMessage :=
  { id := "rid", partIndex := 0, parts := 2, status := some 200,
    headers := [], bodyBase64 := "aGk=" }

/-- Claim C2, code behaviour at the failing input: a client disconnect leaves
the request state untouched (the source registers no close handler - the
request handler attaches only data and end listeners), so the Pending entry
remains, the timer stays armed, the request id stays pinned on the cached
hint relay, and a response part arriving after the disconnect is still matched
and stored rather than discarded. -/
theorem c2_code_behavior :
    clientDisconnect (mkPending ["wss://hint"] "rid" "dpk") =
      mkPending ["wss://hint"] "rid" "dpk" ∧
    (clientDisconnect (mkPending ["wss://hint"] "rid" "dpk")).pendingPresent = true ∧
    (clientDisconnect (mkPending ["wss://hint"] "rid" "dpk")).timerActive = true ∧
    (clientDisconnect (mkPending ["wss://hint"] "rid" "dpk")).pins = ["wss://hint"] ∧
    (oneventDeliver (clientDisconnect (mkPending ["wss://hint"] "rid" "dpk")) "dpk"
        part0of2).responseMessages = [(0, part0of2)] ∧
    (oneventDeliver (clientDisconnect (mkPending ["wss://hint"] "rid" "dpk")) "dpk"
        part0of2).pendingPresent = true := by decide

/-- Claim C3, code behaviour at the failing input: with no initial relays and
an nprofile destination without hints, the resolution writes the 400 guidance
message yet proceeds (the branch at lines 459-465 lacks the return that every
sibling 400 branch has), so the handler still creates a Pending entry, and
the publish phase still runs - in particular, with a cached relay left over
from an earlier request, the request event is published to it. -/
theorem c3_code_behavior :
    resolveDestination [] (fun s => s) (.nprofileGood "pk" []) = .proceed "pk" [] true ∧
    handlerCreatesPending [] (fun s => s) (.nprofileGood "pk" []) = true ∧
    publishTargets [] ["wss://cached"] = ["wss://cached"] := by decide

theorem oneventComplete_pendingPresent (s : RequestState) (rm2 : List (Nat × ResponseMessage))
    (parts : Nat) : (oneventComplete s rm2 parts).pendingPresent = false := by
  unfold oneventComplete
  cases mapGet 0 rm2 <;> rfl

theorem oneventComplete_timerActive (s : RequestState) (rm2 : List (Nat × ResponseMessage))
    (parts : Nat) : (oneventComplete s rm2 parts).timerActive = false := by
  unfold oneventComplete
  cases mapGet 0 rm2 <;> rfl

theorem oneventComplete_responseMessages (s : RequestState) (rm2 : List (Nat × ResponseMessage))
    (parts : Nat) : (oneventComplete s rm2 parts).responseMessages = rm2 := by
  unfold oneventComplete
  cases mapGet 0 rm2 <;> rfl

theorem mapSet_length_le (k : Nat) (v : ResponseMessage) (l : List (Nat × ResponseMessage)) :
    (mapSet k v l).length ≤ l.length + 1 := by
  induction l with
  | nil => simp [mapSet]
  | cons p ps ih =>
    obtain ⟨k2, v2⟩ := p
    simp only [mapSet]
    split
    · simp
    · simpa using Nat.succ_le_succ ih

/-- Parts-count invariant preserved by one delivery step: when every message
carries the same parts value p, a still-pending entry has strictly fewer than
p stored parts and a completed entry has exactly p. -/
theorem oneventDeliver_parts_invariant (p : Nat) (sealPubkey : String) (m : ResponseMessage)
    (hm : m.parts = p) (s : RequestState)
    (h1 : s.pendingPresent = true → s.responseMessages.length < p)
    (h2 : s.pendingPresent = false → s.responseMessages.length = p) :
    ((oneventDeliver s sealPubkey m).pendingPresent = true →
      (oneventDeliver s sealPubkey m).responseMessages.length < p) ∧
    ((oneventDeliver s sealPubkey m).pendingPresent = false →
      (oneventDeliver s sealPubkey m).responseMessages.length = p) := by
  unfold oneventDeliver
  by_cases hcond : m.id = s.reqId ∧ sealPubkey = s.destPk ∧ s.pendingPresent = true
  · rw [if_pos hcond]
    have hpend := hcond.2.2
    have hlen := h1 hpend
    have hle := mapSet_length_le m.partIndex m s.responseMessages
    by_cases hlt : (mapSet m.partIndex m s.responseMessages).length < m.parts
    · rw [if_pos hlt]
      constructor
      · intro _
        exact hm ▸ hlt
      · intro hf
        simp only [hpend] at hf
        cases hf
    · rw [if_neg hlt]
      constructor
      · intro hp
        rw [oneventComplete_pendingPresent] at hp
        cases hp
      · intro _
        rw [oneventComplete_responseMessages]
        omega
  · rw [if_neg hcond]
    exact ⟨h1, h2⟩

/-- Parts-count invariant over a whole delivery sequence. -/
theorem deliverAll_parts_invariant (p : Nat) (sealPubkey : String)
    (ms : List ResponseMessage) (hms : ∀ m ∈ ms, m.parts = p) (s : RequestState)
    (h1 : s.pendingPresent = true → s.responseMessages.length < p)
    (h2 : s.pendingPresent = false → s.responseMessages.length = p) :
    ((deliverAll s sealPubkey ms).pendingPresent = true →
      (deliverAll s sealPubkey ms).responseMessages.length < p) ∧
    ((deliverAll s sealPubkey ms).pendingPresent = false →
      (deliverAll s sealPubkey ms).responseMessages.length = p) := by
  induction ms generalizing s with
  | nil => exact ⟨h1, h2⟩
  | cons m ms ih =>
    have hstep := oneventDeliver_parts_invariant p sealPubkey m
      (hms m (List.mem_cons_self m ms)) s h1 h2
    exact ih (fun m2 hm2 => hms m2 (List.mem_cons_of_mem m hm2)) _ hstep.1 hstep.2

/-- Claim C4 (amended): when all received parts of a response agree on the
parts count p (with p at least 1, as validation requires), the Pending entry
satisfies responseMessages.size strictly below p at every instant at which it
still exists, and completion - removal of the entry - happens exactly when the
stored count reaches p.  Without that agreement the source compares the size
against the parts field of the most recently inserted message, not the first
one, and the bound can be exceeded (see the counterexample). -/
theorem c4_amended (p : Nat) (hp : 1 ≤ p) (pins : List String) (reqId destPk sealPubkey : String)
    (ms : List ResponseMessage) (hms : ∀ m ∈ ms, m.parts = p) :
    ((deliverAll (mkPending pins reqId destPk) sealPubkey ms).pendingPresent = true →
      (deliverAll (mkPending pins reqId destPk) sealPubkey ms).responseMessages.length < p) ∧
    ((deliverAll (mkPending pins reqId destPk) sealPubkey ms).pendingPresent = false →
      (deliverAll (mkPending pins reqId destPk) sealPubkey ms).responseMessages.length = p) := by
  refine deliverAll_parts_invariant p sealPubkey ms hms _ (fun _ => ?_) (fun hf => ?_)
  · simpa [mkPending] using hp
  · cases hf

/-- Witness for c4_amended: a single-part response completes with exactly one
stored part. -/
theorem c4_witness :
    (deliverAll (mkPending [] "rid" "dpk") "dpk" [lateMsg]).pendingPresent = false ∧
    (deliverAll (mkPending [] "rid" "dpk") "dpk" [lateMsg]).responseMessages.length = 1 :=
  ⟨by decide,
   (c4_amended 1 (by decide) [] "rid" "dpk" "dpk" [lateMsg]
     (by intro m hm; cases hm with
         | head => rfl
         | tail _ h => cases h)).2 (by decide)⟩

/-- Messages with inconsistent parts fields, used by the counterexamples:
part 0 announces 2 parts, the parts at indices 3, 1 and 2 announce 5, 3 and
5 respectively. -/
def cm0 : ResponseMessage :=
  { id := "rid", partIndex := 0, parts := 2, status := some 200,
    headers := [], bodyBase64 := "aGk=" }

def cm1 : ResponseMessage :=
  { id := "rid", partIndex := 3, parts := 5, status := none,
    headers := [], bodyBase64 := "eQ" }

def cm2 : ResponseMessage :=
  { id := "rid", partIndex := 1, parts := 3, status := none,
    headers := [], bodyBase64 := "" }

def cm3 : ResponseMessage :=
  { id := "rid", partIndex := 2, parts := 5, status := none,
    headers := [], bodyBase64 := "" }

/-- Claim C4, counterexample: with the expected part count taken from the
first received part (which is also part 0) - here 2 - the source neither
keeps responseMessages.size at or below 2 nor completes when the size reaches
2: after three messages whose parts fields disagree (2, 5, 5) the entry still
exists and holds 3 stored parts, because the source compares the size with the
parts field of the message just inserted, not with the first one. -/
theorem c4_counterexample :
    cm0.parts = 2 ∧ cm0.partIndex = 0 ∧
    (deliverAll (mkPending [] "rid" "dpk") "dpk" [cm0, cm1]).pendingPresent = true ∧
    (deliverAll (mkPending [] "rid" "dpk") "dpk" [cm0, cm1]).responseMessages.length = 2 ∧
    (deliverAll (mkPending [] "rid" "dpk") "dpk" [cm0, cm1, cm3]).pendingPresent = true ∧
    (deliverAll (mkPending [] "rid" "dpk") "dpk" [cm0, cm1, cm3]).responseMessages.length = 3 := by
  decide

/-- Insertion into a list of parts sorted by partIndex. -/
def insertSorted (p : Nat × ResponseMessage) :
    List (Nat × ResponseMessage) → List (Nat × ResponseMessage)
  | [] => [p]
  | q :: qs => if p.1 ≤ q.1 then p :: q :: qs else q :: insertSorted p qs

/-- The stored parts sorted by increasing partIndex. -/
def sortByKey : List (Nat × ResponseMessage) → List (Nat × ResponseMessage)
  | [] => []
  | p :: ps => insertSorted p (sortByKey ps)

/-- The concatenation of the stored parts in increasing partIndex order, the
reading of body assembly that claim C5 describes. -/
def joinStoredInOrder (rm : List (Nat × ResponseMessage)) : String :=
  String.join ((sortByKey rm).map (fun q => q.2.bodyBase64))

theorem insertSorted_perm (p : Nat × ResponseMessage) (l : List (Nat × ResponseMessage)) :
    List.Perm (insertSorted p l) (p :: l) := by
  induction l with
  | nil => exact List.Perm.refl _
  | cons q qs ih =>
    simp only [insertSorted]
    split
    · exact List.Perm.refl _
    · exact (List.Perm.cons q ih).trans (List.Perm.swap p q qs)

theorem sortByKey_perm (l : List (Nat × ResponseMessage)) : List.Perm (sortByKey l) l := by
  induction l with
  | nil => exact List.Perm.refl _
  | cons p ps ih => exact (insertSorted_perm p (sortByKey ps)).trans (List.Perm.cons p ih)

theorem mapGet_eq_some_iff (l : List (Nat × ResponseMessage))
    (hnd : (l.map Prod.fst).Nodup) (k : Nat) (v : ResponseMessage) :
    mapGet k l = some v ↔ (k, v) ∈ l := by
  induction l with
  | nil => simp [mapGet]
  | cons p ps ih =>
    obtain ⟨k2, v2⟩ := p
    simp only [List.map_cons, List.nodup_cons] at hnd
    by_cases hk : k = k2
    · subst hk
      rw [show mapGet k ((k, v2) :: ps) = some v2 from by simp [mapGet]]
      constructor
      · intro h
        injection h with h
        subst h
        exact List.mem_cons_self _ _
      · intro h
        cases h with
        | head => rfl
        | tail _ hmem =>
          exact absurd (List.mem_map_of_mem Prod.fst hmem) hnd.1
    · rw [show mapGet k ((k2, v2) :: ps) = mapGet k ps from by simp [mapGet, hk]]
      rw [ih hnd.2]
      constructor
      · intro h
        exact List.mem_cons_of_mem _ h
      · intro h
        cases h with
        | head => exact absurd rfl hk
        | tail _ hmem => exact hmem

theorem mapGet_eq_none_iff (l : List (Nat × ResponseMessage)) (k : Nat) :
    mapGet k l = none ↔ k ∉ l.map Prod.fst := by
  induction l with
  | nil => simp [mapGet]
  | cons p ps ih =>
    obtain ⟨k2, v2⟩ := p
    by_cases hk : k = k2
    · subst hk
      rw [show mapGet k ((k, v2) :: ps) = some v2 from by simp [mapGet]]
      simp
    · rw [show mapGet k ((k2, v2) :: ps) = mapGet k ps from by simp [mapGet, hk]]
      simp [ih, hk]

/-- Lookup in an association list with distinct keys is invariant under
permutation. -/
theorem mapGet_perm (l l2 : List (Nat × ResponseMessage)) (hp : List.Perm l l2)
    (hnd : (l.map Prod.fst).Nodup) (k : Nat) : mapGet k l = mapGet k l2 := by
  have hnd2 : (l2.map Prod.fst).Nodup := ((hp.map Prod.fst).nodup_iff).mp hnd
  cases he : mapGet k l with
  | some v =>
    have hmem : (k, v) ∈ l := (mapGet_eq_some_iff l hnd k v).mp he
    exact ((mapGet_eq_some_iff l2 hnd2 k v).mpr (hp.mem_iff.mp hmem)).symm
  | none =>
    have hnm : k ∉ l.map Prod.fst := (mapGet_eq_none_iff l k).mp he
    refine ((mapGet_eq_none_iff l2 k).mpr ?_).symm
    intro hc
    exact hnm ((hp.map Prod.fst).mem_iff.mpr hc)

/-- A list of parts whose keys are exactly k, k+1, ..., k+n-1 in order has its
bodies listed exactly as lookup at those keys returns them. -/
theorem mapGet_range_bodies (n : Nat) :
    ∀ (ll : List (Nat × ResponseMessage)) (k : Nat),
      ll.map Prod.fst = (List.range n).map (fun i => i + k) →
      (List.range n).map
          (fun i => ((mapGet (i + k) ll).map (fun q => q.bodyBase64)).getD "") =
        ll.map (fun q => q.2.bodyBase64) := by
  induction n with
  | zero =>
    intro ll k h
    simp only [List.range_zero, List.map_nil] at h ⊢
    rw [List.map_eq_nil_iff] at h
    simp [h]
  | succ n ih =>
    intro ll k h
    cases ll with
    | nil =>
      rw [List.range_succ_eq_map] at h
      simp at h
    | cons p ll2 =>
      obtain ⟨k0, v⟩ := p
      rw [List.range_succ_eq_map] at h
      simp only [List.map_cons, List.map_map] at h
      rw [List.cons_eq_cons] at h
      obtain ⟨hk0, htail⟩ := h
      simp only [Nat.zero_add] at hk0
      subst hk0
      rw [List.range_succ_eq_map]
      simp only [List.map_cons, List.map_map]
      rw [List.cons_eq_cons]
      constructor
      · simp [mapGet]
      · have htail2 : ll2.map Prod.fst = (List.range n).map (fun i => i + (k0 + 1)) := by
          rw [htail]
          apply List.map_congr_left
          intro a _
          simp only [Function.comp_apply]
          omega
        have := ih ll2 (k0 + 1) htail2
        rw [← this]
        apply List.map_congr_left
        intro a _
        simp only [Function.comp_apply]
        have hne : ¬ (a.succ + k0 = k0) := by omega
        rw [show mapGet (a.succ + k0) ((k0, v) :: ll2) = mapGet (a.succ + k0) ll2 from by
          simp [mapGet, hne]]
        have : a.succ + k0 = a + (k0 + 1) := by omega
        rw [this]

/-- When the stored part indices are exactly 0, 1, ..., n-1, the assembly used
by the source (lookup of indices 0 to n-1 with empty fallback) equals the
concatenation of the stored parts in increasing partIndex order. -/
theorem assembleBody_eq_sorted (rm : List (Nat × ResponseMessage)) (n : Nat)
    (h : (sortByKey rm).map Prod.fst = List.range n) :
    assembleBody rm n = joinStoredInOrder rm := by
  have hperm : List.Perm (sortByKey rm) rm := sortByKey_perm rm
  have hndSorted : ((sortByKey rm).map Prod.fst).Nodup := by
    rw [h]
    exact List.nodup_range n
  have hnd : (rm.map Prod.fst).Nodup := ((hperm.map Prod.fst).nodup_iff).mp hndSorted
  unfold assembleBody joinStoredInOrder
  congr 1
  have hget : ∀ i, mapGet i rm = mapGet i (sortByKey rm) :=
    fun i => mapGet_perm rm (sortByKey rm) hperm.symm hnd i
  have hkeys : (sortByKey rm).map Prod.fst = (List.range n).map (fun i => i + 0) := by
    rw [h]
    simp
  have hmain := mapGet_range_bodies n (sortByKey rm) 0 hkeys
  rw [← hmain]
  apply List.map_congr_left
  intro a _
  rw [hget a]
  rw [show a + 0 = a from by omega]

/-- Claim C5 (amended): when a message m completes a Pending entry (the stored
count reaches the parts field of m) and part 0 is stored, the source removes
the entry, cancels its timer, and writes one response whose status and headers
are those of the stored part 0 and whose body is the base64 decoding of the
concatenation over indices 0 to m.parts - 1 of the stored bodies, a missing
index contributing the empty string; whenever the stored part indices are
exactly 0 to m.parts - 1, that concatenation coincides with the concatenation
of the stored parts in increasing partIndex order, which is the body the
original claim describes.  (The original claim fails when a stored part index
falls outside 0 to m.parts - 1, see the counterexample.) -/
theorem c5_amended (s : RequestState) (sealPubkey : String) (m f : ResponseMessage)
    (hid : m.id = s.reqId) (hseal : sealPubkey = s.destPk) (hpend : s.pendingPresent = true)
    (hfull : ¬ (mapSet m.partIndex m s.responseMessages).length < m.parts)
    (hfirst : mapGet 0 (mapSet m.partIndex m s.responseMessages) = some f)
    (hended : s.res.ended = false) :
    (oneventDeliver s sealPubkey m).pendingPresent = false ∧
    (oneventDeliver s sealPubkey m).timerActive = false ∧
    (oneventDeliver s sealPubkey m).res.writes =
      s.res.writes ++ [⟨f.status.getD 0, f.headers,
        base64Decode (assembleBody (mapSet m.partIndex m s.responseMessages) m.parts)⟩] ∧
    ((sortByKey (mapSet m.partIndex m s.responseMessages)).map Prod.fst = List.range m.parts →
      assembleBody (mapSet m.partIndex m s.responseMessages) m.parts =
        joinStoredInOrder (mapSet m.partIndex m s.responseMessages)) := by
  unfold oneventDeliver
  rw [if_pos ⟨hid, hseal, hpend⟩, if_neg hfull]
  unfold oneventComplete
  rw [hfirst]
  refine ⟨rfl, rfl, ?_, ?_⟩
  · show (resWrite s.res _).writes = _
    rw [show resWrite s.res ⟨f.status.getD 0, f.headers,
        base64Decode (assembleBody (mapSet m.partIndex m s.responseMessages) m.parts)⟩ =
        { writes := s.res.writes ++ [⟨f.status.getD 0, f.headers,
            base64Decode (assembleBody (mapSet m.partIndex m s.responseMessages) m.parts)⟩],
          ended := true } from by simp [resWrite, hended]]
  · intro hkeys
    exact assembleBody_eq_sorted _ m.parts hkeys

/-- Witness for c5_amended: a single-part response completes the entry,
removing it and cancelling its timer. -/
theorem c5_witness :
    (oneventDeliver (mkPending [] "rid" "dpk") "dpk" lateMsg).pendingPresent = false ∧
    (oneventDeliver (mkPending [] "rid" "dpk") "dpk" lateMsg).timerActive = false ∧
    (oneventDeliver (mkPending [] "rid" "dpk") "dpk" lateMsg).res.writes =
      [⟨lateMsg.status.getD 0, lateMsg.headers,
        base64Decode (assembleBody (mapSet lateMsg.partIndex lateMsg []) lateMsg.parts)⟩] :=
  ⟨(c5_amended (mkPending [] "rid" "dpk") "dpk" lateMsg lateMsg rfl rfl rfl
      (by decide) (by decide) rfl).1,
   (c5_amended (mkPending [] "rid" "dpk") "dpk" lateMsg lateMsg rfl rfl rfl
      (by decide) (by decide) rfl).2.1,
   (c5_amended (mkPending [] "rid" "dpk") "dpk" lateMsg lateMsg rfl rfl rfl
      (by decide) (by decide) rfl).2.2.1⟩

/-- Claim C5, counterexample: deliver parts with indices 0, 3 and 1 whose
parts fields are 2, 5 and 3; the third message completes the entry (3 stored
parts, parts field 3).  The source assembles indices 0, 1 and 2 only, writing
base64Decode of aGk= - the bytes 104, 105 - whereas the concatenation of the
stored parts in increasing partIndex order (indices 0, 1, 3) is aGk=eQ, whose
base64 decoding 104, 105, 30 differs: the body written does not equal the
decoded concatenation of the stored parts in increasing partIndex order. -/
theorem c5_counterexample :
    (deliverAll (mkPending [] "rid" "dpk") "dpk" [cm0, cm1, cm2]).pendingPresent = false ∧
    (deliverAll (mkPending [] "rid" "dpk") "dpk" [cm0, cm1, cm2]).res.writes =
      [⟨200, [], [104, 105]⟩] ∧
    joinStoredInOrder
      (deliverAll (mkPending [] "rid" "dpk") "dpk" [cm0, cm1, cm2]).responseMessages =
      "aGk=eQ" ∧
    base64Decode "aGk=eQ" = [104, 105, 30] ∧
    ([104, 105] : List Nat) ≠ [104, 105, 30] := by decide

/-- A relay URL together with the components that new URL(relay) exposes and
the filter at src/server.ts lines 615-619 reads: username, password and
search (the query string, empty when absent).  href is the original relay
string as kept in initialRelayUrls and hintRelays; URL parsing itself is a
platform call outside the source. -/
structure RelayURL where
  href : String
  username : String
  password : String
  search : String
deriving DecidableEq, Repr

/-- The filter predicate of src/server.ts lines 616-618: keep the relay only
when its parsed username, password and search are all empty (falsy). -/
def relaySafe (r : RelayURL) : Bool :=
  decide (r.username = "" ∧ r.password = "" ∧ r.search = "")

/-- The safeRelays list of src/server.ts line 615: the concatenation of the
initial relays and the hint relays, filtered by relaySafe. -/
def safeRelays (initial hints : List RelayURL) : List RelayURL :=
  (initial ++ hints).filter relaySafe

def safeRelayStrings (initial hints : List RelayURL) : List String :=
  (safeRelays initial hints).map (fun r => r.href)

/-- The p tag of the published gift wrap, src/server.ts line 625: the tag name,
the destination public key, and the first safe relay if one exists. -/
def pTag (dest : String) (initial hints : List RelayURL) : List String :=
  "p" :: dest :: (safeRelayStrings initial hints).take 1

/-- The optional relays tag of the published gift wrap, src/server.ts line
626: present exactly when more than one safe relay exists, carrying the safe
relays after the first. -/
def relaysTags (initial hints : List RelayURL) : List (List String) :=
  if 1 < (safeRelayStrings initial hints).length then
    [("relays" :: (safeRelayStrings initial hints).drop 1)]
  else []

/-- Claim C8: no relay whose parsed URL carries a username, password or query
string appears among the relay entries of the p tag or of the relays tag; the
first safe relay is the third element of the p tag and the remaining safe
relays form the relays tag when any remain; and every initial relay -
including a credentialed one dropped from the tags - is still a local publish
target.  The injectivity hypothesis states that equal relay strings parse to
equal URL components. -/
theorem c8_safe_relays (dest : String) (initial hints : List RelayURL) (cached : List String)
    (hinj : ∀ r1 ∈ initial ++ hints, ∀ r2 ∈ initial ++ hints, r1.href = r2.href → r1 = r2) :
    (∀ r ∈ initial ++ hints, relaySafe r = false →
      r.href ∉ (pTag dest initial hints).drop 2 ∧
      ∀ t ∈ relaysTags initial hints, r.href ∉ t.drop 1) ∧
    (∀ s ss, safeRelayStrings initial hints = s :: ss →
      pTag dest initial hints = ["p", dest, s] ∧
      (ss ≠ [] → relaysTags initial hints = [("relays" :: ss)]) ∧
      (ss = [] → relaysTags initial hints = [])) ∧
    (∀ r ∈ initial, r.href ∈ publishTargets (initial.map (fun q => q.href)) cached) := by
  have hnotin : ∀ r ∈ initial ++ hints, relaySafe r = false →
      r.href ∉ safeRelayStrings initial hints := by
    intro r hr hunsafe hmem
    obtain ⟨r2, hr2mem, hr2href⟩ := List.mem_map.mp hmem
    have hr2 := List.mem_filter.mp hr2mem
    have : r2 = r := hinj r2 hr2.1 r hr hr2href
    rw [this] at hr2
    rw [hr2.2] at hunsafe
    cases hunsafe
  refine ⟨?_, ?_, ?_⟩
  · intro r hr hunsafe
    constructor
    · intro hmem
      exact hnotin r hr hunsafe
        (List.take_subset 1 (safeRelayStrings initial hints)
          (by simpa [pTag] using hmem))
    · intro t ht hmem
      unfold relaysTags at ht
      by_cases hlen : 1 < (safeRelayStrings initial hints).length
      · rw [if_pos hlen] at ht
        have : t = "relays" :: (safeRelayStrings initial hints).drop 1 := by
          cases ht with
          | head => rfl
          | tail _ hc => cases hc
        rw [this] at hmem
        exact hnotin r hr hunsafe
          (List.drop_subset 1 (safeRelayStrings initial hints) (by simpa using hmem))
      · rw [if_neg hlen] at ht
        cases ht
  · intro s ss hss
    refine ⟨by simp [pTag, hss], ?_, ?_⟩
    · intro hne
      unfold relaysTags
      rw [hss]
      rw [if_pos (by cases ss with
        | nil => exact absurd rfl hne
        | cons a tl => simp)]
      simp
    · intro he
      unfold relaysTags
      rw [hss, he]
      rw [if_neg (by simp)]
  · intro r hr
    exact List.mem_append_left _ (List.mem_map_of_mem _ hr)

def cleanRelay : RelayURL :=
  { href := "wss://a", username := "", password := "", search := "" }

def credRelay : RelayURL :=
  { href := "wss://user:pw@r.example", username := "user", password := "pw", search := "" }

/-- Witness for c8_safe_relays: with one clean initial relay and one
credentialed initial relay, the credentialed URL is absent from the tags, the
p tag carries the clean relay, and the credentialed relay is still a publish
target. -/
theorem c8_witness :
    "wss://user:pw@r.example" ∉ (pTag "d" [cleanRelay, credRelay] []).drop 2 ∧
    pTag "d" [cleanRelay, credRelay] [] = ["p", "d", "wss://a"] ∧
    "wss://user:pw@r.example" ∈
      publishTargets ([cleanRelay, credRelay].map (fun q => q.href)) [] := by
  have h := c8_safe_relays "d" [cleanRelay, credRelay] [] [] (by decide)
  refine ⟨?_, (h.2.1 "wss://a" [] (by decide)).1, h.2.2 credRelay (by decide)⟩
  have h2 := (h.1 credRelay (by decide) (by decide)).1
  simpa [credRelay] using h2

/-- A decoded NIP19 destination, the result of the external nip19.decode call:
a bare public key (npub) or a profile carrying relay hints (nprofile). -/
inductive Nip19Dest where
  | npub (pk : String)
  | nprofile (pk : String) (relays : List String)
deriving DecidableEq, Repr

/-- The relays taken from the relays option, src/server.ts line 74: each
element is split on single spaces and the pieces concatenated; an absent
option yields the empty list. -/
def relaysFromOptionOf (relaysOpt : Option (List String)) : List String :=
  match relaysOpt with
  | some rs => (rs.map (fun r => r.splitOn " ")).flatten
  | none => []

/-- The tail of the relay-list construction of src/server.ts lines 74-87, for
the case in which the relays file did not supply the list: the option relays,
plus - only when the destination decodes to an nprofile - its hint relays
filtered to exclude raw strings already present among the option relays. -/
def readWriteRelaysNoFile (relaysOpt : Option (List String)) (dest : Option Nip19Dest) :
    List String :=
  match dest with
  | none => relaysFromOptionOf relaysOpt
  | some (.npub _) => relaysFromOptionOf relaysOpt
  | some (.nprofile _ prelays) =>
      relaysFromOptionOf relaysOpt ++
        prelays.filter (fun r => r ∉ relaysFromOptionOf relaysOpt)

/-- The relay-list construction of src/server.ts lines 66-87: when the relays
file exists, its whitespace tokens (fileTokens, already filtered for
emptiness) are returned as-is when non-empty - the destination hints are then
never consulted; otherwise the construction falls through to
readWriteRelaysNoFile. -/
def readWriteRelaysCore (fileTokens : Option (List String))
    (relaysOpt : Option (List String)) (dest : Option Nip19Dest) : List String :=
  match fileTokens with
  | some l => if 0 < l.length then l else readWriteRelaysNoFile relaysOpt dest
  | none => readWriteRelaysNoFile relaysOpt dest

/-- First-occurrence deduplication with an accumulator of already seen
entries; keepFirst below equals the filter of src/server.ts line 91, which
keeps an element exactly when its index equals its first index. -/
def keepFirstAux (seen : List String) : List String → List String
  | [] => []
  | x :: xs =>
      if x ∈ seen then keepFirstAux seen xs else x :: keepFirstAux (x :: seen) xs

/-- The deduplication of readWriteRelays, src/server.ts line 91: keep the
first occurrence of every relay string, preserving order. -/
def keepFirst (l : List String) : List String :=
  keepFirstAux [] l

/-- The full readWriteRelays of src/server.ts lines 89-92: normalize every
relay of the core list (normalizeURL is an external library call, abstracted
as the normalize parameter) and deduplicate keeping first occurrences. -/
def readWriteRelays (normalize : String → String) (fileTokens : Option (List String))
    (relaysOpt : Option (List String)) (dest : Option Nip19Dest) : List String :=
  keepFirst ((readWriteRelaysCore fileTokens relaysOpt dest).map normalize)

theorem mem_keepFirstAux (a : String) :
    ∀ (l seen : List String), a ∈ keepFirstAux seen l ↔ a ∈ l ∧ a ∉ seen := by
  intro l
  induction l with
  | nil => simp [keepFirstAux]
  | cons x xs ih =>
    intro seen
    simp only [keepFirstAux]
    by_cases hx : x ∈ seen
    · rw [if_pos hx, ih seen]
      constructor
      · intro h
        exact ⟨List.mem_cons_of_mem x h.1, h.2⟩
      · intro h
        cases h.1 with
        | head => exact absurd hx h.2
        | tail _ hmem => exact ⟨hmem, h.2⟩
    · rw [if_neg hx]
      constructor
      · intro h
        cases h with
        | head => exact ⟨List.mem_cons_self _ _, hx⟩
        | tail _ hmem =>
          have h2 := (ih (x :: seen)).mp hmem
          refine ⟨List.mem_cons_of_mem x h2.1, fun hc => h2.2 (List.mem_cons_of_mem x hc)⟩
      · intro h
        by_cases hax : a = x
        · subst hax
          exact List.mem_cons_self _ _
        · cases h.1 with
          | head => exact absurd rfl hax
          | tail _ hmem =>
            refine List.mem_cons_of_mem x ((ih (x :: seen)).mpr ⟨hmem, ?_⟩)
            intro hc
            cases hc with
            | head => exact hax rfl
            | tail _ hc2 => exact h.2 hc2

theorem mem_keepFirst (a : String) (l : List String) : a ∈ keepFirst l ↔ a ∈ l := by
  unfold keepFirst
  rw [mem_keepFirstAux]
  simp

/-- Claim C9 (amended): the hint relays of a fixed nprofile destination are
appended to the initial relay list only when the relay list is not taken from
a non-empty relays file.  With the file absent or empty, every hint relay
appears (normalized) in the resulting initialRelayUrls; with a non-empty
relays file the file tokens alone are normalized and deduplicated and the
hints are ignored. -/
theorem c9_amended (normalize : String → String) (l opts prelays : List String) (pk : String) :
    (∀ r ∈ prelays,
      normalize r ∈ readWriteRelays normalize none (some opts)
        (some (.nprofile pk prelays)) ∧
      normalize r ∈ readWriteRelays normalize (some []) (some opts)
        (some (.nprofile pk prelays))) ∧
    (l ≠ [] → readWriteRelays normalize (some l) (some opts) (some (.nprofile pk prelays)) =
      keepFirst (l.map normalize)) := by
  constructor
  · intro r hr
    have hcore : normalize r ∈
        (readWriteRelaysNoFile (some opts) (some (.nprofile pk prelays))).map normalize := by
      apply List.mem_map_of_mem normalize
      unfold readWriteRelaysNoFile
      by_cases hmem : r ∈ relaysFromOptionOf (some opts)
      · exact List.mem_append_left _ hmem
      · refine List.mem_append_right _ (List.mem_filter.mpr ⟨hr, ?_⟩)
        simpa using hmem
    constructor
    · rw [readWriteRelays, mem_keepFirst]
      exact hcore
    · rw [readWriteRelays, mem_keepFirst]
      exact hcore
  · intro hne
    rw [readWriteRelays, readWriteRelaysCore]
    rw [if_pos (List.length_pos.mpr hne)]

/-- Witness for c9_amended: with no relays file the hint is present in the
final list; with a non-empty relays file the list is the deduplicated
normalized file list. -/
theorem c9_witness :
    "wss://hint" ∈ readWriteRelays (fun s => s) none (some ["wss://opt"])
      (some (.nprofile "pk" ["wss://hint"])) ∧
    readWriteRelays (fun s => s) (some ["wss://file"]) (some ["wss://opt"])
      (some (.nprofile "pk" ["wss://hint"])) =
      keepFirst (["wss://file"].map (fun s => s)) := by
  have h := c9_amended (fun s => s) ["wss://file"] ["wss://opt"] ["wss://hint"] "pk"
  exact ⟨(h.1 "wss://hint" (by decide)).1, h.2 (by decide)⟩

/-- Claim C9, counterexample: with a fixed nprofile destination carrying the
hint wss://hint and a non-empty relays file containing wss://file, the
initial relay list is just the file list - the hint is NOT appended, contrary
to the claim that the hints of a fixed nprofile destination are appended to
the initial relay set. -/
theorem c9_counterexample :
    readWriteRelays (fun s => s) (some ["wss://file"]) (some ["wss://opt"])
      (some (.nprofile "pk" ["wss://hint"])) = ["wss://file"] ∧
    "wss://hint" ∉ readWriteRelays (fun s => s) (some ["wss://file"]) (some ["wss://opt"])
      (some (.nprofile "pk" ["wss://hint"])) := by decide

/-- A header value as it appears in the copied req.headers object of
src/server.ts line 433: a single string, an array of strings (repeated
header), or undefined. -/
inductive HeaderValue where
  | str (s : String)
  | arr (l : List String)
  | undef
deriving DecidableEq, Repr

/-- The per-header transformation of src/server.ts lines 575-580: an array
value becomes its first element (undefined for an empty array), any other
value becomes itself or the empty string when undefined. -/
def forwardHeaderValue : HeaderValue → JValue
  | .arr [] => JValue.jundef
  | .arr (x :: _) => JValue.jstr x
  | .undef => JValue.jstr ""
  | .str s => JValue.jstr s

/-- The part-0 headers map of the forwarded request message, src/server.ts
lines 575-580: every entry of the copied incoming headers is mapped through
forwardHeaderValue, keeping its name. -/
def forwardHeaders (hs : List (String × HeaderValue)) : List (String × JValue) :=
  hs.map (fun p => (p.1, forwardHeaderValue p.2))

/-- Claim C10: under the Node.js header invariant that array values are
non-empty (an array in req.headers only arises from a repeated header), the
forwarded headers map keeps exactly the incoming names, maps every name to
exactly one string value, reduces an array value to its first element only,
and turns an undefined value into the empty string. -/
theorem c10_forward_headers (hs : List (String × HeaderValue))
    (hnode : ∀ p ∈ hs, p.2 ≠ HeaderValue.arr []) :
    ((forwardHeaders hs).map Prod.fst = hs.map Prod.fst) ∧
    (∀ p ∈ forwardHeaders hs, ∃ s : String, p.2 = JValue.jstr s) ∧
    (∀ (n x : String) (xs : List String),
      (n, HeaderValue.arr (x :: xs)) ∈ hs → (n, JValue.jstr x) ∈ forwardHeaders hs) ∧
    (∀ n : String, (n, HeaderValue.undef) ∈ hs → (n, JValue.jstr "") ∈ forwardHeaders hs) := by
  refine ⟨?_, ?_, ?_, ?_⟩
  · unfold forwardHeaders
    rw [List.map_map]
    apply List.map_congr_left
    intro p _
    rfl
  · intro p hp
    obtain ⟨q, hq, hqe⟩ := List.mem_map.mp hp
    subst hqe
    match hv : q.2 with
    | .str s => exact ⟨s, by simp [forwardHeaderValue, hv]⟩
    | .arr [] => exact absurd hv (hnode q hq)
    | .arr (x :: xs) => exact ⟨x, by simp [forwardHeaderValue, hv]⟩
    | .undef => exact ⟨"", by simp [forwardHeaderValue, hv]⟩
  · intro n x xs hmem
    exact List.mem_map.mpr ⟨(n, HeaderValue.arr (x :: xs)), hmem, rfl⟩
  · intro n hmem
    exact List.mem_map.mpr ⟨(n, HeaderValue.undef), hmem, rfl⟩

def demoHeaders : List (String × HeaderValue) :=
  [("accept", HeaderValue.str "text/html"),
   ("set-cookie", HeaderValue.arr ["c1", "c2"]),
   ("x-custom", HeaderValue.undef)]

/-- Witness for c10_forward_headers at a concrete header list. -/
theorem c10_witness :
    (forwardHeaders demoHeaders).map Prod.fst = demoHeaders.map Prod.fst ∧
    ("set-cookie", JValue.jstr "c1") ∈ forwardHeaders demoHeaders ∧
    ("x-custom", JValue.jstr "") ∈ forwardHeaders demoHeaders := by
  have h := c10_forward_headers demoHeaders (by decide)
  exact ⟨h.1, h.2.2.1 "set-cookie" "c1" ["c2"] (by decide), h.2.2.2 "x-custom" (by decide)⟩
